import Mathlib

/-!
# Decimal128 increment benchmark: latency statistics and workload partitioning

A shallow embedding of `cmd/main.go`.

* `time.Duration` is an `int64`; Go's `int` is taken as the 64-bit signed integer it is on
  the 64-bit platforms.  Values are carried as `Int` and every arithmetic result is wrapped
  with `wrap64`, so overflow behaves as two's complement wrap-around.
* A slice is a `List`; `s[i]` is bounds checked (`index`) and a failed check is the Go panic
  `Failure.indexOutOfRange`.  The statements about `recordStats` carry the side condition
  `durations.length * 999 < 2 ^ 63`, under which `count*999` does not wrap.  It excludes
  only slices of more than `9.2 * 10^15` durations (over 64 PiB), beyond what the Go
  runtime allocates.
* `make` panics for a negative size and for a size above the runtime's `maxAlloc`
  (`makeSlice`, `makeEmpty`).  An allocation within that ceiling is taken to be granted:
  running out of physical memory is a fatal error of the runtime, not a behaviour of this
  program.
* `sort.Slice` belongs to the Go standard library.  With the comparison
  `durations[i] < durations[j]` on scalars its result is the ascending rearrangement of the
  slice, which is unique; `sortSlice` computes it.
* The goroutines of `ScenarioIncDecimal128` are embedded as a transition system whose events
  are the iterations of the launching loop and the iterations of the worker loops, taken in
  any interleaving.
-/

namespace DecimalBench

/-! ## Machine integers and slices -/

/-- Run-time panics of the embedded code. -/
inductive Failure where
  | indexOutOfRange
  | divideByZero
  | makeLenOutOfRange
  | makeCapOutOfRange
  deriving DecidableEq, Repr

/-- Two's complement wrap-around into the signed 64-bit range. -/
def wrap64 (x : Int) : Int := (x + 2 ^ 63) % 2 ^ 64 - 2 ^ 63

/-- Go `a * b` on `int`. -/
def mulInt (a b : Int) : Int := wrap64 (a * b)

/-- Go `a - b` on `int`. -/
def subInt (a b : Int) : Int := wrap64 (a - b)

/-- Go `a / b` on 64-bit signed integers: truncation toward zero, panic on a zero divisor. -/
def divInt (a b : Int) : Except Failure Int :=
  if b = 0 then .error .divideByZero else .ok (wrap64 (a.tdiv b))

/-- Go `s[i]` for reading: the element, or the index-out-of-range panic. -/
def index (s : List Int) (i : Int) : Except Failure Int :=
  if i < 0 then .error .indexOutOfRange
  else match s[i.toNat]? with
    | some d => .ok d
    | none => .error .indexOutOfRange

/-- Result of `sort.Slice(durations, func(i, j int) bool { return durations[i] < durations[j] })`:
the slice rearranged in ascending order. -/
def sortSlice (durations : List Int) : List Int :=
  durations.insertionSort (· ≤ ·)

/-! ## The statistics aggregator -/

/-- The seven named results of `recordStats`. -/
structure Stats where
  min : Int
  max : Int
  avg : Int
  p50 : Int
  p95 : Int
  p99 : Int
  p999 : Int
  deriving DecidableEq, Repr

/-- Embedding of `totalDuration`: `total += duration` over the slice, in `int64`. -/
def totalDuration (durations : List Int) : Int :=
  durations.foldl (fun total duration => wrap64 (total + duration)) 0

/-- Embedding of `recordStats`.  The sort is in place, so every later line reads the sorted
slice.  Statements run in source order, so the first failing one decides the panic.  The
divisions by the constants 100 and 1000 cannot fail or overflow and are plain truncated
divisions. -/
def recordStats (durations : List Int) : Except Failure Stats := do
  let durations := sortSlice durations
  let count : Int := durations.length
  let min ← index durations 0
  let max ← index durations (subInt count 1)
  let avg ← divInt (totalDuration durations) count
  let p50 ← index durations ((mulInt count 50).tdiv 100)
  let p95 ← index durations ((mulInt count 95).tdiv 100)
  let p99 ← index durations ((mulInt count 99).tdiv 100)
  let p999 ← index durations ((mulInt count 999).tdiv 1000)
  pure { min := min, max := max, avg := avg, p50 := p50, p95 := p95, p99 := p99, p999 := p999 }

/-- One millisecond as a `time.Duration` (nanoseconds). -/
def Millisecond : Int := 1000000

/-- The ten latencies 1ms, 2ms, ..., 10ms. -/
def tenLatencies : List Int :=
  [1 * Millisecond, 2 * Millisecond, 3 * Millisecond, 4 * Millisecond, 5 * Millisecond,
   6 * Millisecond, 7 * Millisecond, 8 * Millisecond, 9 * Millisecond, 10 * Millisecond]


/-! ## The workload runner -/

theorem wrap64_eq_self {x : Int} (h1 : -2 ^ 63 ≤ x) (h2 : x < 2 ^ 63) : wrap64 x = x := by
  unfold wrap64; omega

theorem wrap64_lower (x : Int) : -2 ^ 63 ≤ wrap64 x := by
  unfold wrap64; omega

theorem wrap64_upper (x : Int) : wrap64 x < 2 ^ 63 := by
  unfold wrap64; omega

theorem wrap64_add_left (x y : Int) : wrap64 (wrap64 x + y) = wrap64 (x + y) := by
  unfold wrap64; omega

theorem foldl_wrap64 (l : List Int) (a : Int) :
    wrap64 (l.foldl (fun total duration => wrap64 (total + duration)) a) = wrap64 (a + l.sum) := by
  induction l generalizing a with
  | nil => simp
  | cons d l ih =>
    simp only [List.foldl_cons, List.sum_cons]
    rw [ih, wrap64_add_left, add_assoc]

theorem totalDuration_eq (l : List Int) : totalDuration l = wrap64 l.sum := by
  have h := foldl_wrap64 l 0
  rw [zero_add] at h
  rw [← h]
  unfold totalDuration
  induction l using List.reverseRecOn with
  | nil => decide
  | append_singleton l d _ =>
    rw [List.foldl_append]
    simp only [List.foldl_cons, List.foldl_nil]
    exact (wrap64_eq_self (wrap64_lower _) (wrap64_upper _)).symm

theorem tdiv_bounds (lo hi total n : Int) (hn : 0 < n) (hlo : n * lo ≤ total)
    (hhi : total ≤ n * hi) : lo ≤ total.tdiv n ∧ total.tdiv n ≤ hi := by
  rcases le_or_lt 0 total with h | h
  · rw [Int.tdiv_eq_ediv h hn.le]
    exact ⟨Int.le_ediv_of_mul_le hn (by linarith), Int.ediv_le_of_le_mul hn (by linarith)⟩
  · have h1 : total.tdiv n = -((-total) / n) := by
      rw [← Int.tdiv_eq_ediv (by omega) hn.le, Int.neg_tdiv, neg_neg]
    rw [h1]
    have h2 : -hi ≤ (-total) / n := Int.le_ediv_of_mul_le hn (by linarith)
    have h3 : (-total) / n ≤ -lo := Int.ediv_le_of_le_mul hn (by linarith)
    omega

theorem pct_index (n a b : Nat) (ha : a ≤ 999) (hlen : n * 999 < 2 ^ 63) :
    (mulInt (n : Int) (a : Int)).tdiv (b : Int) = ((n * a / b : Nat) : Int) := by
  have h1 : n * a ≤ n * 999 := Nat.mul_le_mul_left n ha
  have h2 : ((n * a : Nat) : Int) < 2 ^ 63 := by
    have : n * a < 2 ^ 63 := lt_of_le_of_lt h1 hlen
    exact_mod_cast this
  have h3 : (0 : Int) ≤ ((n * a : Nat) : Int) := Int.ofNat_nonneg _
  unfold mulInt
  rw [← Nat.cast_mul, wrap64_eq_self (by omega) h2, Int.ofNat_tdiv]


/-! ## Sorting facts -/

theorem sortSlice_perm (l : List Int) : (sortSlice l).Perm l :=
  List.perm_insertionSort _ l

theorem sortSlice_sorted (l : List Int) : (sortSlice l).Sorted (· ≤ ·) :=
  List.sorted_insertionSort _ l

theorem sortSlice_length (l : List Int) : (sortSlice l).length = l.length :=
  (sortSlice_perm l).length_eq

theorem sortSlice_unique {s l : List Int} (hp : s.Perm l) (hs : s.Sorted (· ≤ ·)) :
    s = sortSlice l :=
  List.eq_of_perm_of_sorted (hp.trans (sortSlice_perm l).symm) hs (sortSlice_sorted l)

theorem sortSlice_congr {l₁ l₂ : List Int} (hp : l₁.Perm l₂) : sortSlice l₁ = sortSlice l₂ :=
  sortSlice_unique ((sortSlice_perm l₁).trans hp) (sortSlice_sorted l₁)

theorem sorted_getD_le {s : List Int} (hs : s.Sorted (· ≤ ·)) {i j : Nat} (hij : i ≤ j)
    (hj : j < s.length) : s.getD i 0 ≤ s.getD j 0 := by
  have hi : i < s.length := lt_of_le_of_lt hij hj
  have h := hs.rel_get_of_le (a := ⟨i, hi⟩) (b := ⟨j, hj⟩) hij
  simpa [List.getD_eq_getElem, hi, hj] using h

theorem mem_iff_getD {s : List Int} {x : Int} (hx : x ∈ s) :
    ∃ k, k < s.length ∧ s.getD k 0 = x := by
  obtain ⟨k, hk, rfl⟩ := List.getElem_of_mem hx
  exact ⟨k, hk, by simp [List.getD_eq_getElem, hk]⟩

/-! ## The aggregator on non-empty input -/

theorem index_natCast {s : List Int} {k : Nat} (h : k < s.length) :
    index s (k : Int) = .ok (s.getD k 0) := by
  unfold index
  have h0 : ¬ ((k : Int) < 0) := by omega
  simp [h0, List.getElem?_eq_getElem h, List.getD_eq_getElem, h]

theorem divInt_total (s : List Int) (n : Nat) (hn : 0 < n) :
    divInt (totalDuration s) (n : Int) = .ok ((totalDuration s).tdiv n) := by
  unfold divInt
  have hz : ¬ ((n : Int) = 0) := by omega
  rw [if_neg hz]
  have h1 := wrap64_lower s.sum
  have h2 := wrap64_upper s.sum
  rw [← totalDuration_eq] at h1 h2
  have hn1 : (1 : Int) ≤ n := by omega
  have hb := tdiv_bounds (-2 ^ 63) (2 ^ 63 - 1) (totalDuration s) (n : Int) (by omega)
      (by nlinarith) (by nlinarith)
  rw [wrap64_eq_self hb.1 (by omega)]

theorem count_sub_one (n : Nat) (hn : 0 < n) (hlen : n * 999 < 2 ^ 63) :
    subInt (n : Int) 1 = ((n - 1 : Nat) : Int) := by
  unfold subInt
  rw [wrap64_eq_self (by omega) (by omega)]
  omega


/-- Closed form of `recordStats` on a non-empty slice whose length keeps `count*999` inside
the `int` range. -/
theorem recordStats_eq_ok (durations : List Int) (hne : durations ≠ [])
    (hlen : durations.length * 999 < 2 ^ 63) :
    recordStats durations = .ok
      { min := (sortSlice durations).getD 0 0
        max := (sortSlice durations).getD (durations.length - 1) 0
        avg := (totalDuration (sortSlice durations)).tdiv durations.length
        p50 := (sortSlice durations).getD (durations.length * 50 / 100) 0
        p95 := (sortSlice durations).getD (durations.length * 95 / 100) 0
        p99 := (sortSlice durations).getD (durations.length * 99 / 100) 0
        p999 := (sortSlice durations).getD (durations.length * 999 / 1000) 0 } := by
  have hn : 0 < durations.length := List.length_pos.mpr hne
  have hsl := sortSlice_length durations
  have i0 : index (sortSlice durations) 0 = .ok ((sortSlice durations).getD 0 0) :=
    index_natCast (k := 0) (by omega)
  have imax := index_natCast (s := sortSlice durations) (k := durations.length - 1) (by omega)
  have i50 := index_natCast (s := sortSlice durations) (k := durations.length * 50 / 100) (by omega)
  have i95 := index_natCast (s := sortSlice durations) (k := durations.length * 95 / 100) (by omega)
  have i99 := index_natCast (s := sortSlice durations) (k := durations.length * 99 / 100) (by omega)
  have i999 := index_natCast (s := sortSlice durations) (k := durations.length * 999 / 1000)
    (by omega)
  have e50 := pct_index durations.length 50 100 (by norm_num) hlen
  have e95 := pct_index durations.length 95 100 (by norm_num) hlen
  have e99 := pct_index durations.length 99 100 (by norm_num) hlen
  have e999 := pct_index durations.length 999 1000 (by norm_num) hlen
  have hd := divInt_total (sortSlice durations) durations.length hn
  have e1 := count_sub_one durations.length hn hlen
  unfold recordStats
  simp only [hsl]
  simp only [Nat.cast_ofNat] at e50 e95 e99 e999
  rw [i0, e1, imax, hd, e50, i50, e95, i95, e99, i99, e999, i999]
  rfl


theorem recordStats_congr {l₁ l₂ : List Int} (hp : l₁.Perm l₂) :
    recordStats l₁ = recordStats l₂ := by
  unfold recordStats
  rw [sortSlice_congr hp]

theorem floor_fraction (n a b : Nat) (q : ℚ) (hq : q = (a : ℚ) / (b : ℚ)) :
    ⌊(n : ℚ) * q⌋₊ = n * a / b := by
  have hfl : ⌊(((n * a : Nat) : ℚ)) / ((b : Nat) : ℚ)⌋₊ = n * a / b := Nat.floor_div_eq_div _ _
  rw [← hfl, hq]
  congr 1
  push_cast
  ring

theorem getElem?_of_getD {s : List Int} {k : Nat} (h : k < s.length) :
    s[k]? = some (s.getD k 0) := by
  simp [List.getElem?_eq_getElem h, List.getD_eq_getElem, h]

/-- C1: on every non-empty slice (with `count*999` inside the `int` range) `recordStats`
returns, and its results are ordered
`min ≤ p50 ≤ p95 ≤ p99 ≤ p999 ≤ max`. -/
theorem recordStats_percentiles_ordered (durations : List Int) (hne : durations ≠ [])
    (hlen : durations.length * 999 < 2 ^ 63) :
    ∃ st, recordStats durations = .ok st ∧
      st.min ≤ st.p50 ∧ st.p50 ≤ st.p95 ∧ st.p95 ≤ st.p99 ∧ st.p99 ≤ st.p999 ∧
      st.p999 ≤ st.max := by
  have hn : 0 < durations.length := List.length_pos.mpr hne
  have hs := sortSlice_sorted durations
  have hsl := sortSlice_length durations
  refine ⟨_, recordStats_eq_ok durations hne hlen, ?_, ?_, ?_, ?_, ?_⟩ <;>
    exact sorted_getD_le hs (by omega) (by omega)

theorem recordStats_percentiles_ordered_witness :
    ∃ st, recordStats [30, 10, 20] = .ok st ∧
      st.min ≤ st.p50 ∧ st.p50 ≤ st.p95 ∧ st.p95 ≤ st.p99 ∧ st.p99 ≤ st.p999 ∧
      st.p999 ≤ st.max :=
  recordStats_percentiles_ordered [30, 10, 20] (by decide) (by decide)


theorem sum_bounds_of_sorted (s : List Int) (hs : s.Sorted (· ≤ ·)) (hn : 0 < s.length) :
    (s.length : Int) * s.getD 0 0 ≤ s.sum ∧ s.sum ≤ (s.length : Int) * s.getD (s.length - 1) 0 := by
  constructor
  · have h := List.card_nsmul_le_sum s (s.getD 0 0) (fun x hx => by
      obtain ⟨k, hk, rfl⟩ := mem_iff_getD hx
      exact sorted_getD_le hs (Nat.zero_le k) hk)
    simpa using h
  · have h := List.sum_le_card_nsmul s (s.getD (s.length - 1) 0) (fun x hx => by
      obtain ⟨k, hk, rfl⟩ := mem_iff_getD hx
      exact sorted_getD_le hs (by omega) (by omega))
    simpa using h

/-- C2 (as stated, refuted): on the two durations `2^62, 2^62` the `int64` sum wraps to
`-2^63`, so the returned `avg` is `-2^62`, below the returned `min = 2^62`. -/
theorem recordStats_avg_below_min_on_overflow :
    ∃ st, recordStats [2 ^ 62, 2 ^ 62] = .ok st ∧ st.min = 2 ^ 62 ∧ st.avg = -2 ^ 62 ∧
      ¬ (st.min ≤ st.avg ∧ st.avg ≤ st.max) :=
  ⟨⟨2 ^ 62, 2 ^ 62, -2 ^ 62, 2 ^ 62, 2 ^ 62, 2 ^ 62, 2 ^ 62⟩, by rfl, rfl, rfl, by decide⟩

/-- C2 (amended): on every non-empty slice (with `count*999` inside the `int` range) whose
exact sum lies in the `int64` range
`recordStats` returns, and `min ≤ avg ≤ max`. -/
theorem recordStats_avg_between_min_max (durations : List Int) (hne : durations ≠ [])
    (hlen : durations.length * 999 < 2 ^ 63)
    (hsum : -2 ^ 63 ≤ durations.sum ∧ durations.sum < 2 ^ 63) :
    ∃ st, recordStats durations = .ok st ∧ st.min ≤ st.avg ∧ st.avg ≤ st.max := by
  have hn : 0 < durations.length := List.length_pos.mpr hne
  have hs := sortSlice_sorted durations
  have hsl := sortSlice_length durations
  have hsumeq : (sortSlice durations).sum = durations.sum := (sortSlice_perm durations).sum_eq
  have htot : totalDuration (sortSlice durations) = durations.sum := by
    rw [totalDuration_eq, hsumeq, wrap64_eq_self hsum.1 hsum.2]
  have hb := sum_bounds_of_sorted (sortSlice durations) hs (by omega)
  rw [hsl, hsumeq] at hb
  have ht := tdiv_bounds ((sortSlice durations).getD 0 0)
    ((sortSlice durations).getD (durations.length - 1) 0)
    durations.sum (durations.length : Int) (by omega) hb.1 hb.2
  refine ⟨_, recordStats_eq_ok durations hne hlen, ?_, ?_⟩
  · show _ ≤ (totalDuration (sortSlice durations)).tdiv _
    rw [htot]; exact ht.1
  · show (totalDuration (sortSlice durations)).tdiv _ ≤ _
    rw [htot]; exact ht.2

theorem recordStats_avg_between_min_max_witness :
    ∃ st, recordStats [-7, 4, -2] = .ok st ∧ st.min ≤ st.avg ∧ st.avg ≤ st.max :=
  recordStats_avg_between_min_max [-7, 4, -2] (by decide) (by decide) (by decide)

/-- C3: `recordStats` returns the same seven values on a non-empty slice (with `count*999`
inside the `int` range), on every
permutation of it and on its ascending sort. -/
theorem recordStats_order_independent (l₁ l₂ : List Int) (hne : l₁ ≠ [])
    (hlen : l₁.length * 999 < 2 ^ 63) (hp : l₁.Perm l₂) :
    ∃ st, recordStats l₁ = .ok st ∧ recordStats l₂ = .ok st ∧
      recordStats (sortSlice l₁) = .ok st := by
  refine ⟨_, recordStats_eq_ok l₁ hne hlen, ?_, ?_⟩
  · rw [← recordStats_congr hp]; exact recordStats_eq_ok l₁ hne hlen
  · rw [recordStats_congr (sortSlice_perm l₁)]; exact recordStats_eq_ok l₁ hne hlen

theorem recordStats_order_independent_witness :
    ∃ st, recordStats [5, 1, 4, 1] = .ok st ∧ recordStats [1, 4, 5, 1] = .ok st ∧
      recordStats (sortSlice [5, 1, 4, 1]) = .ok st :=
  recordStats_order_independent [5, 1, 4, 1] [1, 4, 5, 1] (by decide) (by decide) (by decide)


/-- C5: with `s` the ascending rearrangement of a non-empty input of `count` elements
(`count*999` inside the `int` range),
`recordStats` returns `min = s[0]`, `max = s[count-1]` and `p50, p95, p99, p999` equal to
`s[⌊count*f⌋]` for `f = 0.50, 0.95, 0.99, 0.999`. -/
theorem recordStats_nearest_rank (durations s : List Int) (hne : durations ≠ [])
    (hlen : durations.length * 999 < 2 ^ 63) (hp : s.Perm durations)
    (hs : s.Sorted (· ≤ ·)) :
    ∃ st, recordStats durations = .ok st ∧
      s[0]? = some st.min ∧
      s[durations.length - 1]? = some st.max ∧
      s[⌊(durations.length : ℚ) * 0.50⌋₊]? = some st.p50 ∧
      s[⌊(durations.length : ℚ) * 0.95⌋₊]? = some st.p95 ∧
      s[⌊(durations.length : ℚ) * 0.99⌋₊]? = some st.p99 ∧
      s[⌊(durations.length : ℚ) * 0.999⌋₊]? = some st.p999 := by
  have hn : 0 < durations.length := List.length_pos.mpr hne
  have hsl := sortSlice_length durations
  obtain rfl := sortSlice_unique hp hs
  rw [floor_fraction durations.length 50 100 0.50 (by norm_num),
    floor_fraction durations.length 95 100 0.95 (by norm_num),
    floor_fraction durations.length 99 100 0.99 (by norm_num),
    floor_fraction durations.length 999 1000 0.999 (by norm_num)]
  refine ⟨_, recordStats_eq_ok durations hne hlen, ?_, ?_, ?_, ?_, ?_, ?_⟩ <;>
    exact getElem?_of_getD (by omega)

theorem recordStats_nearest_rank_witness :
    ∃ st, recordStats [30, 10, 20] = .ok st ∧
      ([10, 20, 30] : List Int)[0]? = some st.min ∧
      ([10, 20, 30] : List Int)[[30, 10, 20].length - 1]? = some st.max ∧
      ([10, 20, 30] : List Int)[⌊(([30, 10, 20] : List Int).length : ℚ) * 0.50⌋₊]? = some st.p50 ∧
      ([10, 20, 30] : List Int)[⌊(([30, 10, 20] : List Int).length : ℚ) * 0.95⌋₊]? = some st.p95 ∧
      ([10, 20, 30] : List Int)[⌊(([30, 10, 20] : List Int).length : ℚ) * 0.99⌋₊]? = some st.p99 ∧
      ([10, 20, 30] : List Int)[⌊(([30, 10, 20] : List Int).length : ℚ) * 0.999⌋₊]? = some st.p999 :=
  recordStats_nearest_rank [30, 10, 20] [10, 20, 30] (by decide) (by decide) (by decide)
    (by decide)

/-- C6 (as stated, refuted): on 1ms, ..., 10ms the returned `avg` is 5500000ns (5.5ms),
not 5ms. -/
theorem recordStats_tenLatencies_avg_not_5ms :
    ∃ st, recordStats tenLatencies = .ok st ∧ st.avg = 5500000 ∧
      st.avg ≠ 5 * Millisecond :=
  ⟨⟨1000000, 10000000, 5500000, 6000000, 10000000, 10000000, 10000000⟩, by rfl, rfl,
    by decide⟩

/-- C6 (amended): on the ten latencies 1ms, ..., 10ms in any order `recordStats` returns
`min = 1ms`, `max = 10ms`, `p50 = 6ms` and `avg = 5500000ns` (5.5ms, the exact mean). -/
theorem recordStats_tenLatencies (l : List Int) (hp : l.Perm tenLatencies) :
    ∃ st, recordStats l = .ok st ∧ st.p50 = 6 * Millisecond ∧ st.min = 1 * Millisecond ∧
      st.max = 10 * Millisecond ∧ st.avg = 5500000 ∧ 2 * st.avg = 11 * Millisecond := by
  rw [recordStats_congr hp]
  exact ⟨⟨1000000, 10000000, 5500000, 6000000, 10000000, 10000000, 10000000⟩, by rfl, by rfl,
    by rfl, by rfl, rfl, by rfl⟩

theorem recordStats_tenLatencies_witness :
    ∃ st, recordStats tenLatencies.reverse = .ok st ∧ st.p50 = 6 * Millisecond ∧
      st.min = 1 * Millisecond ∧ st.max = 10 * Millisecond ∧ st.avg = 5500000 ∧
      2 * st.avg = 11 * Millisecond :=
  recordStats_tenLatencies tenLatencies.reverse (List.reverse_perm tenLatencies)


theorem recordStats_nil : recordStats [] = .error .indexOutOfRange := by rfl

/-- C7: among the slices with `count*999` inside the `int` range, `recordStats` fails
exactly on the empty slice, there with the index-out-of-range
panic; on a non-empty slice it returns, the divisor `count` is non-zero and each index it
uses (`0`, `count-1`, `count*50/100`, `count*95/100`, `count*99/100`, `count*999/1000`) lies
in `[0, count)`. -/
theorem recordStats_fails_iff_empty (durations : List Int)
    (hlen : durations.length * 999 < 2 ^ 63) :
    (recordStats durations = .error .indexOutOfRange ↔ durations = []) ∧
    ((∃ f, recordStats durations = .error f) ↔ durations = []) ∧
    ((∃ st, recordStats durations = .ok st) ↔ durations ≠ []) ∧
    (durations ≠ [] →
      ((sortSlice durations).length : Int) ≠ 0 ∧
      ∀ i ∈ [0, subInt ((sortSlice durations).length : Int) 1,
             (mulInt ((sortSlice durations).length : Int) 50).tdiv 100,
             (mulInt ((sortSlice durations).length : Int) 95).tdiv 100,
             (mulInt ((sortSlice durations).length : Int) 99).tdiv 100,
             (mulInt ((sortSlice durations).length : Int) 999).tdiv 1000],
        0 ≤ i ∧ i < ((sortSlice durations).length : Int)) := by
  by_cases hne : durations = []
  · subst hne
    refine ⟨by simp [recordStats_nil], ?_, ?_, by simp⟩
    · simp only [iff_true]; exact ⟨_, recordStats_nil⟩
    · simp [recordStats_nil]
  · have hok := recordStats_eq_ok durations hne hlen
    have hn : 0 < durations.length := List.length_pos.mpr hne
    refine ⟨by simp [hok, hne], by simp [hok, hne], by simp [hok, hne], fun _ => ?_⟩
    rw [sortSlice_length]
    have e1 := count_sub_one durations.length hn hlen
    have e50 := pct_index durations.length 50 100 (by norm_num) hlen
    have e95 := pct_index durations.length 95 100 (by norm_num) hlen
    have e99 := pct_index durations.length 99 100 (by norm_num) hlen
    have e999 := pct_index durations.length 999 1000 (by norm_num) hlen
    simp only [Nat.cast_ofNat] at e50 e95 e99 e999
    rw [e1, e50, e95, e99, e999]
    refine ⟨by omega, ?_⟩
    intro i hi
    simp only [List.mem_cons, List.mem_singleton, List.not_mem_nil, or_false] at hi
    rcases hi with rfl | rfl | rfl | rfl | rfl | rfl <;> omega

theorem recordStats_fails_iff_empty_witness :
    (recordStats [3, 1, 2] = .error .indexOutOfRange ↔ ([3, 1, 2] : List Int) = []) ∧
    ((∃ f, recordStats [3, 1, 2] = .error f) ↔ ([3, 1, 2] : List Int) = []) ∧
    ((∃ st, recordStats [3, 1, 2] = .ok st) ↔ ([3, 1, 2] : List Int) ≠ []) ∧
    (([3, 1, 2] : List Int) ≠ [] →
      ((sortSlice [3, 1, 2]).length : Int) ≠ 0 ∧
      ∀ i ∈ [0, subInt ((sortSlice [3, 1, 2]).length : Int) 1,
             (mulInt ((sortSlice [3, 1, 2]).length : Int) 50).tdiv 100,
             (mulInt ((sortSlice [3, 1, 2]).length : Int) 95).tdiv 100,
             (mulInt ((sortSlice [3, 1, 2]).length : Int) 99).tdiv 100,
             (mulInt ((sortSlice [3, 1, 2]).length : Int) 999).tdiv 1000],
        0 ≤ i ∧ i < ((sortSlice [3, 1, 2]).length : Int)) :=
  recordStats_fails_iff_empty [3, 1, 2] (by decide)

theorem sorted_nodup_getD_lt {s : List Int} (hs : s.Sorted (· ≤ ·)) (hnd : s.Nodup)
    {i j : Nat} (hij : i < j) (hj : j < s.length) : s.getD i 0 < s.getD j 0 := by
  have hi : i < s.length := lt_trans hij hj
  refine lt_of_le_of_ne (sorted_getD_le hs hij.le hj) ?_
  intro heq
  rw [List.getD_eq_getElem _ _ hi, List.getD_eq_getElem _ _ hj] at heq
  have := (List.Nodup.getElem_inj_iff hnd).mp heq
  omega

/-- C10: for a non-empty input of `count` elements (`count*999` inside the `int` range)
`recordStats` returns as `p999` the element of the sorted slice at index `count*999/1000`
and as `max` the one at index `count-1`; the two indices are equal exactly when
`count ≤ 1000`; whenever `count ≤ 1000` the returned `p999` equals the returned `max`, and
for `count > 1000` pairwise distinct durations give `p999 < max`. -/
theorem recordStats_p999_index (durations : List Int) (hne : durations ≠ [])
    (hlen : durations.length * 999 < 2 ^ 63) :
    ∃ st, recordStats durations = .ok st ∧
      index (sortSlice durations)
        ((mulInt ((sortSlice durations).length : Int) 999).tdiv 1000) = .ok st.p999 ∧
      index (sortSlice durations) (subInt ((sortSlice durations).length : Int) 1)
        = .ok st.max ∧
      ((mulInt ((sortSlice durations).length : Int) 999).tdiv 1000
        = subInt ((sortSlice durations).length : Int) 1 ↔ durations.length ≤ 1000) ∧
      (durations.length ≤ 1000 → st.p999 = st.max) ∧
      (1000 < durations.length → durations.Nodup → st.p999 < st.max) := by
  have hn : 0 < durations.length := List.length_pos.mpr hne
  have hsl := sortSlice_length durations
  have e1 := count_sub_one durations.length hn hlen
  have e999 := pct_index durations.length 999 1000 (by norm_num) hlen
  simp only [Nat.cast_ofNat] at e999
  rw [hsl, e1, e999]
  refine ⟨_, recordStats_eq_ok durations hne hlen, index_natCast (by omega),
    index_natCast (by omega), by omega, ?_, ?_⟩
  · intro h
    show (sortSlice durations).getD (durations.length * 999 / 1000) 0
      = (sortSlice durations).getD (durations.length - 1) 0
    have : durations.length * 999 / 1000 = durations.length - 1 := by omega
    rw [this]
  · intro h hnd
    exact sorted_nodup_getD_lt (sortSlice_sorted durations)
      ((sortSlice_perm durations).nodup_iff.mpr hnd) (by omega) (by omega)

theorem recordStats_p999_index_witness :
    (∃ st, recordStats [3, 1, 2] = .ok st ∧ st.p999 = st.max) ∧
    (∃ st, recordStats ((List.range 1001).map Int.ofNat) = .ok st ∧ st.p999 < st.max) := by
  constructor
  · obtain ⟨st, h, _, _, _, h5, _⟩ := recordStats_p999_index [3, 1, 2] (by decide) (by decide)
    exact ⟨st, h, h5 (by decide)⟩
  · obtain ⟨st, h, _, _, _, _, h6⟩ :=
      recordStats_p999_index ((List.range 1001).map Int.ofNat) (by simp) (by simp)
    exact ⟨st, h, h6 (by simp)
      (List.Nodup.map (fun _ _ h => Int.ofNat.inj h) (List.nodup_range 1001))⟩
/-! ## Invariant of the workload runner -/

end DecimalBench
